import Mathlib

/-!
# Verification of the GPIB spurious-emissions measurement core

Shallow embedding of the measurement/compensation pipeline of this
repository (`analysis.py`, `generate_compensation.py`, `sweep_analysis.py`).

Modelling conventions:
* Python floats are modelled as exact rationals (`ℚ`); decimal literals such
  as `0.01`, `0.9`, `1.1`, `100e3` become the exact rationals `1/100`,
  `9/10`, `11/10`, `100000`.  No claim under consideration depends on binary
  floating-point rounding.
* A CSV file on disk is modelled as `Option` of its parsed contents
  (`none` = the file does not exist).
* Functions that raise exceptions (`float(...)`, `int(...)`) are modelled as
  `Option`-returning functions, `none` meaning the exception is raised.
-/

/-! ## Peak classification (`analysis.separate_carrier_and_spurious`) -/

/-- A peak `(frequency_hz, power_dbm)` as produced by `parse_peak_data`. -/
abbrev Peak := ℚ × ℚ

/-- `analysis.separate_carrier_and_spurious(peaks, carrier_freq)`:
`tolerance = max(carrier_freq * 0.01, 100e3)`; the loop appends each peak to
the carrier list when `abs(freq - carrier_freq) < tolerance`, otherwise to
the spurious list. -/
def separate_carrier_and_spurious (peaks : List Peak) (carrier_freq : ℚ) :
    List Peak × List Peak :=
  let tolerance := max (carrier_freq * (1/100)) 100000
  peaks.foldl
    (fun acc pk =>
      if |pk.1 - carrier_freq| < tolerance then (acc.1 ++ [pk], acc.2)
      else (acc.1, acc.2 ++ [pk]))
    ([], [])

theorem separate_foldl_eq (carrier_freq : ℚ) (tolerance : ℚ) :
    ∀ (l : List Peak) (c s : List Peak),
      l.foldl
        (fun acc pk =>
          if |pk.1 - carrier_freq| < tolerance then (acc.1 ++ [pk], acc.2)
          else (acc.1, acc.2 ++ [pk]))
        (c, s)
      = (c ++ l.filter (fun pk => decide (|pk.1 - carrier_freq| < tolerance)),
         s ++ l.filter (fun pk => !decide (|pk.1 - carrier_freq| < tolerance))) := by
  intro l
  induction l with
  | nil => intro c s; simp
  | cons a l ih =>
    intro c s
    by_cases ha : |a.1 - carrier_freq| < tolerance
    · simp only [List.foldl_cons, if_pos ha, ih, List.filter_cons,
        decide_eq_true ha, Bool.not_true, List.append_assoc]
      simp
    · simp only [List.foldl_cons, if_neg ha, ih, List.filter_cons,
        decide_eq_false ha, Bool.not_false, List.append_assoc]
      simp

theorem separate_eq_filter (peaks : List Peak) (carrier_freq : ℚ) :
    separate_carrier_and_spurious peaks carrier_freq
      = (peaks.filter
          (fun pk => decide (|pk.1 - carrier_freq| < max (carrier_freq * (1/100)) 100000)),
         peaks.filter
          (fun pk => !decide (|pk.1 - carrier_freq| < max (carrier_freq * (1/100)) 100000))) := by
  unfold separate_carrier_and_spurious
  rw [separate_foldl_eq]
  simp

/-- C1: for every carrier frequency `cf` and every peak `(f, p)` of the input,
`separate_carrier_and_spurious` puts `(f, p)` into the carrier list exactly
when `|f - cf| < max (cf * 0.01) 100000` and into the spurious list exactly
otherwise; in particular a peak exactly at `cf + tolerance` or
`cf - tolerance` is classified as spurious, the comparison being strict. -/
theorem separate_classification (peaks : List Peak) (cf f p : ℚ) :
    ((f, p) ∈ (separate_carrier_and_spurious peaks cf).1 ↔
        (f, p) ∈ peaks ∧ |f - cf| < max (cf * (1/100)) 100000)
    ∧ ((f, p) ∈ (separate_carrier_and_spurious peaks cf).2 ↔
        (f, p) ∈ peaks ∧ ¬ |f - cf| < max (cf * (1/100)) 100000)
    ∧ ((cf + max (cf * (1/100)) 100000, p) ∈ peaks →
        (cf + max (cf * (1/100)) 100000, p) ∈ (separate_carrier_and_spurious peaks cf).2)
    ∧ ((cf - max (cf * (1/100)) 100000, p) ∈ peaks →
        (cf - max (cf * (1/100)) 100000, p) ∈ (separate_carrier_and_spurious peaks cf).2) := by
  have htolpos : (0 : ℚ) < max (cf * (1/100)) 100000 :=
    lt_of_lt_of_le (by norm_num) (le_max_right _ _)
  rw [separate_eq_filter]
  refine ⟨?_, ?_, ?_, ?_⟩
  · simp [List.mem_filter]
  · simp [List.mem_filter]
  · intro hmem
    rw [List.mem_filter]
    refine ⟨hmem, ?_⟩
    simp only [Bool.not_eq_true', decide_eq_false_iff_not]
    rw [add_sub_cancel_left, abs_of_pos htolpos]
    exact lt_irrefl _
  · intro hmem
    rw [List.mem_filter]
    refine ⟨hmem, ?_⟩
    simp only [Bool.not_eq_true', decide_eq_false_iff_not]
    rw [sub_sub_cancel_left, abs_neg, abs_of_pos htolpos]
    exact lt_irrefl _

/-- Witness for C1: with carrier frequency `1e8` the tolerance is
`max(1e6, 1e5) = 1e6`, so a peak at exactly `1.01e8 = cf + tolerance`
lands in the spurious list. -/
theorem separate_classification_witness :
    ((100000000 : ℚ) + max ((100000000 : ℚ) * (1/100)) 100000, (-20 : ℚ))
      ∈ (separate_carrier_and_spurious [((101000000 : ℚ), (-20 : ℚ))] 100000000).2 :=
  (separate_classification [((101000000 : ℚ), (-20 : ℚ))] 100000000 0 (-20)).2.2.1
    (by norm_num)

theorem filter_length_partition (p : Peak → Bool) :
    ∀ l : List Peak,
      (l.filter p).length + (l.filter (fun x => !p x)).length = l.length := by
  intro l
  induction l with
  | nil => simp
  | cons a l ih =>
    cases ha : p a <;> simp [List.filter_cons, ha, Nat.succ_eq_add_one] <;> omega

theorem filter_count_partition (p : Peak → Bool) (pk : Peak) (l : List Peak) :
    (l.filter p).count pk + (l.filter (fun x => !p x)).count pk = l.count pk := by
  cases hp : p pk
  · have h1 : (l.filter p).count pk = 0 := by
      rw [List.count_eq_zero]
      intro hmem
      have hpk := List.of_mem_filter hmem
      simp [hp] at hpk
    rw [h1, List.count_filter (by simp [hp])]
    omega
  · have h2 : (l.filter (fun x => !p x)).count pk = 0 := by
      rw [List.count_eq_zero]
      intro hmem
      have hpk := List.of_mem_filter hmem
      simp [hp] at hpk
    rw [h2, List.count_filter hp]
    omega

/-- C2: `separate_carrier_and_spurious` partitions its input without loss:
the output lengths sum to the input length, every peak value occurs in the
two outputs exactly as often as in the input, and each output is an
order-preserving sublist of the input. -/
theorem separate_partition (peaks : List Peak) (cf : ℚ) :
    ((separate_carrier_and_spurious peaks cf).1.length
        + (separate_carrier_and_spurious peaks cf).2.length = peaks.length)
    ∧ (∀ pk : Peak,
        (separate_carrier_and_spurious peaks cf).1.count pk
          + (separate_carrier_and_spurious peaks cf).2.count pk = peaks.count pk)
    ∧ List.Sublist (separate_carrier_and_spurious peaks cf).1 peaks
    ∧ List.Sublist (separate_carrier_and_spurious peaks cf).2 peaks := by
  rw [separate_eq_filter]
  exact ⟨filter_length_partition _ peaks,
    fun pk => filter_count_partition _ pk peaks,
    List.filter_sublist _, List.filter_sublist _⟩

/-! ## Compensation lookup (`analysis.get_compensation` / `np.interp`)

`get_compensation` guards against an absent or empty table and otherwise
calls `np.interp(freq_hz, comp_freqs, comp_dbs)`.  The parallel arrays
`comp_freqs`/`comp_dbs` are modelled as one list of pairs; `np.interp` on an
ascending table clamps to the edge values outside the table's range and
interpolates linearly inside. -/

/-- `np.interp(x, xp, fp)` for an ascending knot table:
at or below the first knot the first value, between two consecutive knots
linear interpolation (exact at the right knot), above the last knot the last
value. -/
def np_interp (x : ℚ) : List (ℚ × ℚ) → ℚ
  | [] => 0
  | [p] => p.2
  | p :: q :: rest =>
      if x ≤ p.1 then p.2
      else if x ≤ q.1 then p.2 + (q.2 - p.2) * (x - p.1) / (q.1 - p.1)
      else np_interp x (q :: rest)

/-- `analysis.get_compensation(freq_hz, comp_freqs, comp_dbs)`: `0.0` when the
table is `None` or empty, `np.interp` otherwise. -/
def get_compensation (freq_hz : ℚ) (comp : Option (List (ℚ × ℚ))) : ℚ :=
  match comp with
  | none => 0
  | some table => if table.length = 0 then 0 else np_interp freq_hz table

theorem fst_le_of_getElem? {a : ℚ × ℚ} {l : List (ℚ × ℚ)}
    (hs : (a :: l).Pairwise (fun u v => u.1 < v.1)) :
    ∀ (j : ℕ) (p : ℚ × ℚ), (a :: l)[j]? = some p → a.1 ≤ p.1 := by
  intro j p hj
  cases j with
  | zero =>
    simp only [List.getElem?_cons_zero, Option.some.injEq] at hj
    exact le_of_eq (by rw [hj])
  | succ n =>
    simp only [List.getElem?_cons_succ] at hj
    have hmem : p ∈ l := List.getElem?_mem hj
    exact le_of_lt ((List.pairwise_cons.mp hs).1 p hmem)

theorem np_interp_head {x : ℚ} : ∀ {pts : List (ℚ × ℚ)} {p0 : ℚ × ℚ},
    pts.head? = some p0 → x < p0.1 → np_interp x pts = p0.2 := by
  intro pts p0 h0 hx
  match pts with
  | [] => simp at h0
  | [p] =>
    simp only [List.head?_cons, Option.some.injEq] at h0
    subst h0
    rfl
  | p :: q :: rest =>
    simp only [List.head?_cons, Option.some.injEq] at h0
    subst h0
    simp only [np_interp, if_pos hx.le]

theorem np_interp_last {x : ℚ} : ∀ {pts : List (ℚ × ℚ)},
    pts.Pairwise (fun u v => u.1 < v.1) →
    ∀ {pl : ℚ × ℚ}, pts.getLast? = some pl → pl.1 < x → np_interp x pts = pl.2 := by
  intro pts
  induction pts with
  | nil => intro _ pl h; simp at h
  | cons a tl ih =>
    intro hs pl hlast hx
    match tl with
    | [] =>
      simp only [List.getLast?_singleton, Option.some.injEq] at hlast
      subst hlast
      rfl
    | b :: rest =>
      have hlast' : (b :: rest).getLast? = some pl := by
        rwa [List.getLast?_cons_cons] at hlast
      have hmem : pl ∈ b :: rest := List.mem_of_mem_getLast? hlast'
      have ha : a.1 < pl.1 := (List.pairwise_cons.mp hs).1 pl hmem
      have hb : b.1 ≤ pl.1 :=
        fst_le_of_getElem? ((List.pairwise_cons.mp hs).2)
          ((b :: rest).length - 1) pl (by rwa [List.getLast?_eq_getElem?] at hlast')
      have hrec := ih ((List.pairwise_cons.mp hs).2) hlast' hx
      simp only [np_interp, if_neg (not_le.mpr (ha.trans hx)),
        if_neg (not_le.mpr (lt_of_le_of_lt hb hx))]
      exact hrec

theorem np_interp_knot {x : ℚ} : ∀ {pts : List (ℚ × ℚ)},
    pts.Pairwise (fun u v => u.1 < v.1) →
    ∀ {p : ℚ × ℚ}, p ∈ pts → x = p.1 → np_interp x pts = p.2 := by
  intro pts
  induction pts with
  | nil => intro _ p h; simp at h
  | cons a tl ih =>
    intro hs p hmem hx
    subst hx
    rcases List.mem_cons.mp hmem with rfl | hmem'
    · match tl with
      | [] => rfl
      | b :: rest => simp only [np_interp, if_pos le_rfl]
    · have hap : a.1 < p.1 := (List.pairwise_cons.mp hs).1 p hmem'
      match tl with
      | [] => simp at hmem'
      | b :: rest =>
        rcases List.mem_cons.mp hmem' with rfl | hmem'' 
        · have hab : a.1 < p.1 := hap
          simp only [np_interp, if_neg (not_le.mpr hab), if_pos le_rfl]
          have hne : p.1 - a.1 ≠ 0 := sub_ne_zero.mpr (ne_of_gt hab)
          field_simp
        · have hbp : b.1 < p.1 :=
            (List.pairwise_cons.mp ((List.pairwise_cons.mp hs).2)).1 p hmem''
          simp only [np_interp, if_neg (not_le.mpr hap), if_neg (not_le.mpr hbp)]
          exact ih ((List.pairwise_cons.mp hs).2) hmem' rfl

theorem np_interp_bracket {x : ℚ} : ∀ {pts : List (ℚ × ℚ)},
    pts.Pairwise (fun u v => u.1 < v.1) →
    ∀ (i : ℕ) (p q : ℚ × ℚ), pts[i]? = some p → pts[i + 1]? = some q →
      p.1 < x → x < q.1 →
      np_interp x pts = p.2 + (q.2 - p.2) * (x - p.1) / (q.1 - p.1) := by
  intro pts
  induction pts with
  | nil => intro _ i p q h; simp at h
  | cons a tl ih =>
    intro hs i p q hp hq hpx hxq
    match tl with
    | [] =>
      rcases i with _ | n <;> simp at hq
    | b :: rest =>
      cases i with
      | zero =>
        simp only [List.getElem?_cons_zero, Option.some.injEq] at hp
        simp only [List.getElem?_cons_succ, List.getElem?_cons_zero,
          Option.some.injEq] at hq
        subst hp; subst hq
        simp only [np_interp, if_neg (not_le.mpr hpx), if_pos hxq.le]
      | succ n =>
        rw [List.getElem?_cons_succ] at hp
        rw [show n + 1 + 1 = (n + 1) + 1 from rfl, List.getElem?_cons_succ] at hq
        have hmem : p ∈ b :: rest := List.getElem?_mem hp
        have hax : a.1 < x := ((List.pairwise_cons.mp hs).1 p hmem).trans hpx
        have hbx : b.1 < x :=
          lt_of_le_of_lt (fst_le_of_getElem? ((List.pairwise_cons.mp hs).2) n p hp) hpx
        simp only [np_interp, if_neg (not_le.mpr hax), if_neg (not_le.mpr hbx)]
        exact ih ((List.pairwise_cons.mp hs).2) n p q hp hq hpx hxq

/-- C3: `get_compensation` returns `0` for an absent (`None`) or empty table;
for a non-empty table strictly ascending in frequency it is exact at knot
frequencies, linear between two bracketing knots, and flat (nearest edge
value) below the first and above the last knot; on the table
`{(1e6, -3), (2e6, -5)}` the lookup at `1.5e6` is `-4`. -/
theorem get_compensation_lookup (f : ℚ) (pts : List (ℚ × ℚ))
    (hs : pts.Pairwise (fun u v => u.1 < v.1)) :
    get_compensation f none = 0
    ∧ get_compensation f (some []) = 0
    ∧ (∀ p ∈ pts, f = p.1 → get_compensation f (some pts) = p.2)
    ∧ (∀ (i : ℕ) (p q : ℚ × ℚ), pts[i]? = some p → pts[i + 1]? = some q →
        p.1 < f → f < q.1 →
        get_compensation f (some pts) = p.2 + (q.2 - p.2) * (f - p.1) / (q.1 - p.1))
    ∧ (∀ p0, pts.head? = some p0 → f < p0.1 → get_compensation f (some pts) = p0.2)
    ∧ (∀ pl, pts.getLast? = some pl → pl.1 < f → get_compensation f (some pts) = pl.2)
    ∧ get_compensation (3/2 * 1000000)
        (some [((1000000 : ℚ), (-3 : ℚ)), ((2000000 : ℚ), (-5 : ℚ))]) = -4 := by
  have hne : ∀ {p : ℚ × ℚ}, p ∈ pts →
      get_compensation f (some pts) = np_interp f pts := by
    intro p hp
    have : pts.length ≠ 0 := by
      intro h
      rw [List.length_eq_zero] at h
      subst h
      simp at hp
    simp [get_compensation, this]
  refine ⟨rfl, rfl, ?_, ?_, ?_, ?_, ?_⟩
  · intro p hp hf
    rw [hne hp]
    exact np_interp_knot hs hp hf
  · intro i p q hp hq hpf hfq
    rw [hne (List.getElem?_mem hp)]
    exact np_interp_bracket hs i p q hp hq hpf hfq
  · intro p0 h0 hf0
    rw [hne (List.mem_of_mem_head? h0)]
    exact np_interp_head h0 hf0
  · intro pl hl hlf
    rw [hne (List.mem_of_mem_getLast? hl)]
    exact np_interp_last hs hl hlf
  · norm_num [get_compensation, np_interp]

/-- Witness for C3: instantiating the lookup theorem at the spec's example
table `{(1e6, -3), (2e6, -5)}` gives `lookup(1.5e6) = -4`. -/
theorem get_compensation_lookup_witness :
    get_compensation (3/2 * 1000000)
      (some [((1000000 : ℚ), (-3 : ℚ)), ((2000000 : ℚ), (-5 : ℚ))]) = -4 :=
  (get_compensation_lookup (3/2 * 1000000)
      [((1000000 : ℚ), (-3 : ℚ)), ((2000000 : ℚ), (-5 : ℚ))]
      (by norm_num)).2.2.2.2.2.2

/-! ## Frequency string parsing (`analysis.parse_frequency`,
`sweep_analysis.parse_frequency`)

Python's builtin `float(...)` is modelled as a character-level automaton
accepting an optional sign, a mantissa (`digits`, `digits.`, `.digits` or
`digits.digits`) and an optional exponent (`e`/`E`, optional sign, digits).
`inf`/`nan` literals and underscore digit separators are not representable
in `ℚ` and are omitted; no claim under study involves them, and no valid
input for them ends in the letter `z` either.  The result is `some` of the
exact rational value, `none` when `float(...)` raises `ValueError`. -/

/-- States of the `float(...)` automaton. -/
inductive FState where
  | start
  | afterSign
  | intg
  | dotStart
  | intDot
  | frac
  | e0
  | eSign
  | eDig
  | reject
deriving DecidableEq

/-- Numeric accumulator carried through the `float(...)` automaton:
the mantissa digits read so far as a natural number together with the number
of digits read after the decimal dot, plus the signs and the exponent. -/
structure FloatAcc where
  neg : Bool
  mantNum : ℕ
  fracLen : ℕ
  eneg : Bool
  expVal : ℕ
deriving DecidableEq

def floatAccInit : FloatAcc := ⟨false, 0, 0, false, 0⟩

def digitVal (c : Char) : ℕ := c.toNat - 48

/-- One step of the `float(...)` automaton. -/
def fstep : FState × FloatAcc → Char → FState × FloatAcc
  | (s, a), c =>
    match s with
    | .start =>
        if c = '+' then (.afterSign, a)
        else if c = '-' then (.afterSign, { a with neg := true })
        else if c.isDigit then (.intg, { a with mantNum := 10 * a.mantNum + digitVal c })
        else if c = '.' then (.dotStart, a)
        else (.reject, a)
    | .afterSign =>
        if c.isDigit then (.intg, { a with mantNum := 10 * a.mantNum + digitVal c })
        else if c = '.' then (.dotStart, a)
        else (.reject, a)
    | .intg =>
        if c.isDigit then (.intg, { a with mantNum := 10 * a.mantNum + digitVal c })
        else if c = '.' then (.intDot, a)
        else if c = 'e' ∨ c = 'E' then (.e0, a)
        else (.reject, a)
    | .dotStart =>
        if c.isDigit then
          (.frac, { a with mantNum := 10 * a.mantNum + digitVal c, fracLen := a.fracLen + 1 })
        else (.reject, a)
    | .intDot =>
        if c.isDigit then
          (.frac, { a with mantNum := 10 * a.mantNum + digitVal c, fracLen := a.fracLen + 1 })
        else if c = 'e' ∨ c = 'E' then (.e0, a)
        else (.reject, a)
    | .frac =>
        if c.isDigit then
          (.frac, { a with mantNum := 10 * a.mantNum + digitVal c, fracLen := a.fracLen + 1 })
        else if c = 'e' ∨ c = 'E' then (.e0, a)
        else (.reject, a)
    | .e0 =>
        if c = '+' then (.eSign, a)
        else if c = '-' then (.eSign, { a with eneg := true })
        else if c.isDigit then (.eDig, { a with expVal := 10 * a.expVal + digitVal c })
        else (.reject, a)
    | .eSign =>
        if c.isDigit then (.eDig, { a with expVal := 10 * a.expVal + digitVal c })
        else (.reject, a)
    | .eDig =>
        if c.isDigit then (.eDig, { a with expVal := 10 * a.expVal + digitVal c })
        else (.reject, a)
    | .reject => (.reject, a)

/-- Accepting states of the `float(...)` automaton. -/
def faccepting : FState → Bool
  | .intg => true
  | .intDot => true
  | .frac => true
  | .eDig => true
  | _ => false

def floatVal (a : FloatAcc) : ℚ :=
  (if a.neg then (-1 : ℚ) else 1) * ((a.mantNum : ℚ) / 10 ^ a.fracLen)
    * (if a.eneg then (1/10 : ℚ) ^ a.expVal else (10 : ℚ) ^ a.expVal)

/-- Python `float(cs)`: `some` of the parsed value, `none` on `ValueError`. -/
def pyFloat (cs : List Char) : Option ℚ :=
  let r := cs.foldl fstep (.start, floatAccInit)
  if faccepting r.1 then some (floatVal r.2) else none

theorem fstep_z (p : FState × FloatAcc) : (fstep p 'z').1 = FState.reject := by
  obtain ⟨s, a⟩ := p
  cases s <;> rfl

/-- No string ending in the letter `z` is a valid Python float literal. -/
theorem pyFloat_ends_z (cs : List Char) : pyFloat (cs ++ ['z']) = none := by
  unfold pyFloat
  rw [List.foldl_append]
  simp only [List.foldl_cons, List.foldl_nil]
  rw [fstep_z]
  rfl

/-- `freq_str.lower().replace(" ", "")` from `analysis.parse_frequency`. -/
def normalize_freq_str (input : List Char) : List Char :=
  (input.map Char.toLower).filter (fun c => !decide (c = ' '))

/-- `analysis.parse_frequency(freq_str)`: lowercases and removes spaces, then
tries the suffixes `khz`, `k`, `mhz`, `m`, `ghz`, `g` in this order
(`float` of the prefix times the unit), falling back to `float` of the whole
string.  There is no `hz` branch. -/
def parse_frequency (input : List Char) : Option ℚ :=
  let s := normalize_freq_str input
  if List.isSuffixOf ['k', 'h', 'z'] s then
    (pyFloat (s.take (s.length - 3))).map (fun v => v * 1000)
  else if List.isSuffixOf ['k'] s then
    (pyFloat (s.take (s.length - 1))).map (fun v => v * 1000)
  else if List.isSuffixOf ['m', 'h', 'z'] s then
    (pyFloat (s.take (s.length - 3))).map (fun v => v * 1000000)
  else if List.isSuffixOf ['m'] s then
    (pyFloat (s.take (s.length - 1))).map (fun v => v * 1000000)
  else if List.isSuffixOf ['g', 'h', 'z'] s then
    (pyFloat (s.take (s.length - 3))).map (fun v => v * 1000000000)
  else if List.isSuffixOf ['g'] s then
    (pyFloat (s.take (s.length - 1))).map (fun v => v * 1000000000)
  else pyFloat s

/-- `freq_str.lower().strip()` from `sweep_analysis.parse_frequency`. -/
def strip_ws (cs : List Char) : List Char :=
  ((cs.dropWhile Char.isWhitespace).reverse.dropWhile Char.isWhitespace).reverse

/-- `sweep_analysis.parse_frequency(freq_str)`: lowercases and strips outer
whitespace, recognizes the suffixes `ghz`, `mhz`, `khz` and also the bare
`hz` (multiplier 1). -/
def sweep_parse_frequency (input : List Char) : Option ℚ :=
  let s := strip_ws (input.map Char.toLower)
  if List.isSuffixOf ['g', 'h', 'z'] s then
    (pyFloat (s.take (s.length - 3))).map (fun v => v * 1000000000)
  else if List.isSuffixOf ['m', 'h', 'z'] s then
    (pyFloat (s.take (s.length - 3))).map (fun v => v * 1000000)
  else if List.isSuffixOf ['k', 'h', 'z'] s then
    (pyFloat (s.take (s.length - 3))).map (fun v => v * 1000)
  else if List.isSuffixOf ['h', 'z'] s then
    pyFloat (s.take (s.length - 2))
  else pyFloat s

theorem suffix_hz_getLast (x : Char) (ys : List Char)
    (h : List.isSuffixOf [x, 'h', 'z'] (ys ++ ['h', 'z']) = true) :
    ys.getLast? = some x := by
  rw [List.isSuffixOf_iff_suffix] at h
  obtain ⟨t, ht⟩ := h
  have h2 : (t ++ [x]) ++ ['h', 'z'] = ys ++ ['h', 'z'] := by
    simpa [List.append_assoc] using ht
  have h3 : t ++ [x] = ys := List.append_cancel_right h2
  rw [← h3, List.getLast?_concat]

theorem suffix_single_getLast (x : Char) (l : List Char)
    (h : List.isSuffixOf [x] l = true) : l.getLast? = some x := by
  rw [List.isSuffixOf_iff_suffix] at h
  obtain ⟨t, ht⟩ := h
  rw [← ht, List.getLast?_concat]

/-- C10: any input whose normalized text ends in a bare `hz` suffix not
preceded by a `k`/`m`/`g` unit letter matches none of the suffixes
`khz`/`k`/`mhz`/`m`/`ghz`/`g` of `analysis.parse_frequency` and falls into
the no-suffix branch, where `float(...)` fails on the trailing letters, so
the parse raises `ValueError` (`none`); by contrast the second parser in
`sweep_analysis.py` accepts the `hz` suffix, e.g. on `"100hz"`. -/
theorem parse_frequency_hz_rejected :
    (∀ (input ys : List Char),
      normalize_freq_str input = ys ++ ['h', 'z'] →
      (∀ c, ys.getLast? = some c → c ≠ 'k' ∧ c ≠ 'm' ∧ c ≠ 'g') →
      parse_frequency input = none)
    ∧ sweep_parse_frequency ['1', '0', '0', 'h', 'z'] = some 100 := by
  constructor
  · intro input ys hnorm hlast
    have hlz : (ys ++ ['h', 'z']).getLast? = some 'z' := by
      rw [show ys ++ ['h', 'z'] = (ys ++ ['h']) ++ ['z'] by simp, List.getLast?_concat]
    have c1 : List.isSuffixOf ['k', 'h', 'z'] (ys ++ ['h', 'z']) = false := by
      cases hc : List.isSuffixOf ['k', 'h', 'z'] (ys ++ ['h', 'z'])
      · rfl
      · exact absurd rfl (hlast 'k' (suffix_hz_getLast 'k' ys hc)).1
    have c2 : List.isSuffixOf ['k'] (ys ++ ['h', 'z']) = false := by
      cases hc : List.isSuffixOf ['k'] (ys ++ ['h', 'z'])
      · rfl
      · have h2 := suffix_single_getLast 'k' _ hc
        rw [hlz] at h2
        simp at h2
    have c3 : List.isSuffixOf ['m', 'h', 'z'] (ys ++ ['h', 'z']) = false := by
      cases hc : List.isSuffixOf ['m', 'h', 'z'] (ys ++ ['h', 'z'])
      · rfl
      · exact absurd rfl (hlast 'm' (suffix_hz_getLast 'm' ys hc)).2.1
    have c4 : List.isSuffixOf ['m'] (ys ++ ['h', 'z']) = false := by
      cases hc : List.isSuffixOf ['m'] (ys ++ ['h', 'z'])
      · rfl
      · have h2 := suffix_single_getLast 'm' _ hc
        rw [hlz] at h2
        simp at h2
    have c5 : List.isSuffixOf ['g', 'h', 'z'] (ys ++ ['h', 'z']) = false := by
      cases hc : List.isSuffixOf ['g', 'h', 'z'] (ys ++ ['h', 'z'])
      · rfl
      · exact absurd rfl (hlast 'g' (suffix_hz_getLast 'g' ys hc)).2.2
    have c6 : List.isSuffixOf ['g'] (ys ++ ['h', 'z']) = false := by
      cases hc : List.isSuffixOf ['g'] (ys ++ ['h', 'z'])
      · rfl
      · have h2 := suffix_single_getLast 'g' _ hc
        rw [hlz] at h2
        simp at h2
    have hz : pyFloat (ys ++ ['h', 'z']) = none := by
      rw [show ys ++ ['h', 'z'] = (ys ++ ['h']) ++ ['z'] by simp]
      exact pyFloat_ends_z _
    simp only [parse_frequency, hnorm, c1, c2, c3, c4, c5, c6,
      Bool.false_eq_true, if_false, hz]
  · have hstrip : strip_ws (List.map Char.toLower ['1', '0', '0', 'h', 'z'])
        = ['1', '0', '0', 'h', 'z'] := by decide
    have hg : List.isSuffixOf ['g', 'h', 'z'] ['1', '0', '0', 'h', 'z'] = false := by decide
    have hm : List.isSuffixOf ['m', 'h', 'z'] ['1', '0', '0', 'h', 'z'] = false := by decide
    have hk : List.isSuffixOf ['k', 'h', 'z'] ['1', '0', '0', 'h', 'z'] = false := by decide
    have hhz : List.isSuffixOf ['h', 'z'] ['1', '0', '0', 'h', 'z'] = true := by decide
    have htake : (['1', '0', '0', 'h', 'z'] : List Char).take
        ((['1', '0', '0', 'h', 'z'] : List Char).length - 2) = ['1', '0', '0'] := by decide
    have hfold : List.foldl fstep (FState.start, floatAccInit) ['1', '0', '0']
        = (FState.intg, ⟨false, 100, 0, false, 0⟩) := by decide
    simp only [sweep_parse_frequency, hstrip, hg, hm, hk, hhz,
      Bool.false_eq_true, if_false, if_true, htake]
    rw [pyFloat, hfold]
    norm_num [faccepting, floatVal]

/-- Witness for C10: `analysis.parse_frequency` rejects the literal input
`"100hz"` while `sweep_analysis.parse_frequency` accepts it. -/
theorem parse_frequency_hz_rejected_witness :
    parse_frequency ['1', '0', '0', 'h', 'z'] = none :=
  parse_frequency_hz_rejected.1 ['1', '0', '0', 'h', 'z'] ['1', '0', '0']
    (by decide)
    (fun c hc => by
      have hc0 : c = '0' := by simpa using hc.symm
      subst hc0
      decide)

/-! ## Measurement log (`analysis.get_next_measurement_index`,
`analysis.append_peaks_to_csv`)

The log file is modelled at the CSV level: `Option (List (List String))`,
`none` when `peak_report.csv` does not exist, otherwise the list of rows,
each row a list of cells.  Python's `int(...)` is modelled as an
`Option Int`-valued parser (optional surrounding whitespace, optional sign,
decimal digits; underscore separators are omitted, no claim involves them). -/

/-- Digit run parsed as a non-negative integer; `none` unless the input is a
non-empty all-digit string. -/
def pyIntDigits (cs : List Char) : Option Int :=
  if cs ≠ [] ∧ cs.all Char.isDigit then
    some (cs.foldl (fun n c => 10 * n + (digitVal c : Int)) 0)
  else none

/-- Python `int(cell)`: `some` of the parsed integer, `none` on
`ValueError`. -/
def pyInt (s : String) : Option Int :=
  match strip_ws s.toList with
  | '+' :: rest => pyIntDigits rest
  | '-' :: rest => (pyIntDigits rest).map (fun v => -v)
  | cs => pyIntDigits cs

/-- The fixed `fieldnames` list of `append_peaks_to_csv`. -/
def logFieldnames : List String :=
  ["measurement_index", "timestamp", "peak_type", "frequency_hz",
   "measured_power_dbm", "compensation_db", "corrected_power_dbm"]

/-- The contribution of one data row to the running maximum in
`get_next_measurement_index`: `none` when the row is empty (`if row:`),
the index cell is missing (`IndexError`) or fails to parse (`ValueError`). -/
def rowIndexValue (idx_col : ℕ) (row : List String) : Option Int :=
  if row = [] then none
  else
    match row[idx_col]? with
    | none => none
    | some cell => pyInt cell

/-- `analysis.get_next_measurement_index(filename)`: `0` for an absent or
empty file or a header without a `measurement_index` column; otherwise the
running maximum (started at `-1`) of the parseable index cells, plus one. -/
def get_next_measurement_index (file : Option (List (List String))) : Int :=
  match file with
  | none => 0
  | some [] => 0
  | some (header :: rows) =>
    match List.findIdx? (fun h => decide (h = "measurement_index")) header with
    | none => 0
    | some idx_col =>
        (rows.foldl
          (fun m row =>
            match rowIndexValue idx_col row with
            | none => m
            | some v => if m < v then v else m)
          (-1 : Int)) + 1

/-- One written CSV record of `append_peaks_to_csv`, in `fieldnames` order;
`corrected_power_dbm` is `measured_power_dbm - compensation_db`. -/
def buildRow (idx : Int) (ts ptype : String) (freq power comp_db : ℚ) :
    List String :=
  [toString idx, ts, ptype, toString freq, toString power,
   toString comp_db, toString (power - comp_db)]

/-- The rows `append_peaks_to_csv` builds: one per carrier peak, then one
per spurious peak, each with `get_compensation` of its frequency. -/
def newRecords (carrier_peaks spurious_peaks : List Peak)
    (comp : Option (List (ℚ × ℚ))) (idx : Int) (ts : String) :
    List (List String) :=
  carrier_peaks.map
    (fun pk => buildRow idx ts ("carrier") pk.1 pk.2 (get_compensation pk.1 comp))
  ++ spurious_peaks.map
    (fun pk => buildRow idx ts ("spurious") pk.1 pk.2 (get_compensation pk.1 comp))

/-- `analysis.append_peaks_to_csv(...)`: resolves the index via
`get_next_measurement_index` and the timestamp via the clock (`now`) when
unspecified, builds one record per peak, returns the file unchanged when
there is nothing to write, and otherwise appends, prepending the header row
exactly when the file did not exist. -/
def append_peaks_to_csv (carrier_peaks spurious_peaks : List Peak)
    (comp : Option (List (ℚ × ℚ))) (file : Option (List (List String)))
    (measurement_index : Option Int) (timestamp : Option String)
    (now : String) : Option (List (List String)) :=
  let idx := measurement_index.getD (get_next_measurement_index file)
  let ts := timestamp.getD now
  let rows := newRecords carrier_peaks spurious_peaks comp idx ts
  if rows = [] then file
  else
    match file with
    | none => some (logFieldnames :: rows)
    | some existing => some (existing ++ rows)

theorem ite_lt_eq_max (m v : Int) : (if m < v then v else m) = max m v := by
  by_cases h : m < v
  · rw [if_pos h, max_eq_right h.le]
  · rw [if_neg h, max_eq_left (not_lt.mp h)]

theorem get_next_foldl_max (idx_col : ℕ) :
    ∀ (rows : List (List String)) (m : Int),
      rows.foldl
        (fun m row =>
          match rowIndexValue idx_col row with
          | none => m
          | some v => if m < v then v else m)
        m
      = (rows.filterMap (rowIndexValue idx_col)).foldl max m := by
  intro rows
  induction rows with
  | nil => intro m; rfl
  | cons r rows ih =>
    intro m
    cases hr : rowIndexValue idx_col r with
    | none =>
      simp only [List.foldl_cons, List.filterMap_cons, hr, ih]
    | some v =>
      simp only [List.foldl_cons, List.filterMap_cons, hr]
      rw [ite_lt_eq_max]
      exact ih _

/-- C8 (amended): `get_next_measurement_index` returns `0` for an absent
file, an empty file and a header without a `measurement_index` column;
otherwise it returns one plus the maximum of `-1` and the parsed index
values of the data rows (rows that fail to parse are silently skipped), so
it returns `0` when no row parses — and also when every parsed index is
negative; a log with valid indices `{0, 2, 5}` plus one malformed row
yields `6`. -/
theorem get_next_measurement_index_spec :
    get_next_measurement_index none = 0
    ∧ get_next_measurement_index (some []) = 0
    ∧ (∀ (header : List String) (rows : List (List String)),
        List.findIdx? (fun h => decide (h = "measurement_index")) header = none →
        get_next_measurement_index (some (header :: rows)) = 0)
    ∧ (∀ (header : List String) (rows : List (List String)) (idx_col : ℕ),
        List.findIdx? (fun h => decide (h = "measurement_index")) header = some idx_col →
        get_next_measurement_index (some (header :: rows))
          = (rows.filterMap (rowIndexValue idx_col)).foldl max (-1) + 1)
    ∧ (∀ (header : List String) (rows : List (List String)) (idx_col : ℕ),
        List.findIdx? (fun h => decide (h = "measurement_index")) header = some idx_col →
        rows.filterMap (rowIndexValue idx_col) = [] →
        get_next_measurement_index (some (header :: rows)) = 0)
    ∧ get_next_measurement_index
        (some [["measurement_index"], ["0"], ["2"], ["oops"], ["5"]]) = 6 := by
  refine ⟨rfl, rfl, ?_, ?_, ?_, by decide⟩
  · intro header rows hidx
    simp only [get_next_measurement_index, hidx]
  · intro header rows idx_col hidx
    simp only [get_next_measurement_index, hidx, get_next_foldl_max]
  · intro header rows idx_col hidx hparse
    simp only [get_next_measurement_index, hidx, get_next_foldl_max, hparse,
      List.foldl_nil]
    rfl

/-- Witness for C8: the example log with indices `{0, 2, 5}` and a malformed
row, via the column-found case of the theorem. -/
theorem get_next_measurement_index_spec_witness :
    get_next_measurement_index
        (some [["measurement_index"], ["0"], ["2"], ["oops"], ["5"]])
      = (([["0"], ["2"], ["oops"], ["5"]] : List (List String)).filterMap
          (rowIndexValue 0)).foldl max (-1) + 1 :=
  get_next_measurement_index_spec.2.2.2.1 ["measurement_index"]
    [["0"], ["2"], ["oops"], ["5"]] 0 (by decide)

/-- Counterexample for C8: on a log whose only data row parses as the
negative index `-5`, the function returns `0`, not `-5 + 1 = -4` as "one
plus the maximum over the rows whose index cell parses" would demand. -/
theorem get_next_measurement_index_negative_counterexample :
    get_next_measurement_index (some [["measurement_index"], ["-5"]]) = 0
    ∧ rowIndexValue 0 ["-5"] = some (-5)
    ∧ ¬ get_next_measurement_index (some [["measurement_index"], ["-5"]])
          = -5 + 1 := by
  refine ⟨by decide, by decide, by decide⟩

/-- C9: with both peak lists empty, `append_peaks_to_csv` returns before
touching the file: a missing file stays missing, an existing file keeps its
exact contents, and neither header nor data rows are written. -/
theorem append_peaks_empty_noop (comp : Option (List (ℚ × ℚ)))
    (file : Option (List (List String))) (measurement_index : Option Int)
    (timestamp : Option String) (now : String) :
    append_peaks_to_csv [] [] comp file measurement_index timestamp now
      = file := rfl

/-- C4: with at least one peak between the two groups,
`append_peaks_to_csv` appends exactly one record per input peak — the
carrier records in input order followed by the spurious records in input
order — each record's `corrected_power_dbm` cell being
`measured_power_dbm - get_compensation(frequency)`; the header row is
prepended exactly when the file did not exist; with no explicit
`measurement_index` the written index is `get_next_measurement_index` of the
same file. -/
theorem append_peaks_spec (car spu : List Peak) (comp : Option (List (ℚ × ℚ)))
    (file : Option (List (List String))) (tsArg : Option String)
    (now : String) (h : ¬(car = [] ∧ spu = [])) :
    (newRecords car spu comp (get_next_measurement_index file)
        (tsArg.getD now)).length = car.length + spu.length
    ∧ (∀ (k : ℕ) (pk : Peak), car[k]? = some pk →
        (newRecords car spu comp (get_next_measurement_index file) (tsArg.getD now))[k]?
          = some (buildRow (get_next_measurement_index file) (tsArg.getD now)
              ("carrier") pk.1 pk.2 (get_compensation pk.1 comp)))
    ∧ (∀ (k : ℕ) (pk : Peak), spu[k]? = some pk →
        (newRecords car spu comp (get_next_measurement_index file)
            (tsArg.getD now))[car.length + k]?
          = some (buildRow (get_next_measurement_index file) (tsArg.getD now)
              ("spurious") pk.1 pk.2 (get_compensation pk.1 comp)))
    ∧ (∀ (idx : Int) (ts ptype : String) (f pw cd : ℚ),
        (buildRow idx ts ptype f pw cd)[6]? = some (toString (pw - cd)))
    ∧ (file = none →
        append_peaks_to_csv car spu comp file none tsArg now
          = some (logFieldnames
              :: newRecords car spu comp (get_next_measurement_index file)
                  (tsArg.getD now)))
    ∧ (∀ existing, file = some existing →
        append_peaks_to_csv car spu comp file none tsArg now
          = some (existing
              ++ newRecords car spu comp (get_next_measurement_index file)
                  (tsArg.getD now))) := by
  have hne : newRecords car spu comp (get_next_measurement_index file)
      (tsArg.getD now) ≠ [] := by
    simp only [newRecords, ne_eq, List.append_eq_nil, List.map_eq_nil_iff]
    exact h
  refine ⟨?_, ?_, ?_, ?_, ?_, ?_⟩
  · simp [newRecords]
  · intro k pk hk
    have hklt : k < car.length := by
      rcases List.getElem?_eq_some_iff.mp hk with ⟨hlt, _⟩
      exact hlt
    rw [newRecords, List.getElem?_append_left (by simpa using hklt),
      List.getElem?_map, hk]
    rfl
  · intro k pk hk
    rw [newRecords, List.getElem?_append_right (by simp),
      List.length_map, Nat.add_sub_cancel_left, List.getElem?_map, hk]
    rfl
  · intro idx ts ptype f pw cd
    rfl
  · intro hfile
    subst hfile
    simp only [append_peaks_to_csv, Option.getD_none, if_neg hne]
  · intro existing hfile
    subst hfile
    simp only [append_peaks_to_csv, Option.getD_none, if_neg hne]

/-- Witness for C4: one carrier peak at `1 MHz`, `-10 dBm`, no compensation
table, absent log file: one record is appended after the header. -/
theorem append_peaks_spec_witness :
    (newRecords [((1000000 : ℚ), (-10 : ℚ))] [] none
        (get_next_measurement_index none) ((none : Option String).getD ("t"))).length
      = 1 + 0
    ∧ append_peaks_to_csv [((1000000 : ℚ), (-10 : ℚ))] [] none none none none ("t")
        = some (logFieldnames
            :: newRecords [((1000000 : ℚ), (-10 : ℚ))] [] none
                (get_next_measurement_index none) ((none : Option String).getD ("t"))) := by
  have happ := append_peaks_spec [((1000000 : ℚ), (-10 : ℚ))] [] none none none
    ("t") (by simp)
  exact ⟨by simpa using happ.1, happ.2.2.2.2.1 rfl⟩

/-! ## Compensation builder (`generate_compensation.update_compensation_file`)

The compensation file as written by `update_compensation_file` is a single
`#` comment line followed by `frequency,attenuation` data rows (no header
row: `df.to_csv(f, index=False, header=False)`). -/

/-- A compensation file on disk: its leading comment line and its data
rows. -/
structure CompFile where
  header : String
  rows : List (ℚ × ℚ)

/-- The fixed comment line `update_compensation_file` writes. -/
def comp_header : String := "# Frequency (Hz), Attenuation (dB)"

/-- Reading the existing table in `update_compensation_file`:
`pd.read_csv(filename, header=0, names=['frequency', 'attenuation'],
comment='#')`.  The file is written with a single leading `#` comment line
and no header row; `comment='#'` makes pandas ignore the comment line, and
passing `names` together with `header=0` makes pandas treat the first
remaining line — the first data row — as the header row that `names`
replaces, so that row is discarded.  Reading therefore yields the stored
points minus the first (lowest-frequency) one; an absent file yields the
empty table. -/
def read_compensation_table (file : Option CompFile) : List (ℚ × ℚ) :=
  match file with
  | none => []
  | some f => f.rows.drop 1

/-- One iteration of the eviction loop:
`df = df[~((df['frequency'] >= freq * 0.9) & (df['frequency'] <= freq * 1.1))]`. -/
def evict_near (table : List (ℚ × ℚ)) (freq : ℚ) : List (ℚ × ℚ) :=
  table.filter (fun p => !decide (freq * (9/10) ≤ p.1 ∧ p.1 ≤ freq * (11/10)))

/-- `generate_compensation.update_compensation_file(new_points, filename)`:
reads the existing table, evicts — per new point — the existing points
within the ±10% band of the new point's frequency, concatenates the
survivors with all new points, sorts ascending by frequency (pandas
`sort_values`; the model uses a stable insertion sort, ties are not
constrained by any claim) and writes the fixed comment line plus the
rows. -/
def update_compensation_file (file : Option CompFile)
    (new_points : List (ℚ × ℚ)) : CompFile :=
  { header := comp_header,
    rows := ((new_points.foldl (fun d p => evict_near d p.1)
        (read_compensation_table file)) ++ new_points).insertionSort
        (fun p q => p.1 ≤ q.1) }

theorem mem_foldl_evict :
    ∀ (l : List (ℚ × ℚ)) (df : List (ℚ × ℚ)) (pt : ℚ × ℚ),
      pt ∈ l.foldl (fun d p => evict_near d p.1) df →
      pt ∈ df ∧ ∀ q ∈ l, ¬(q.1 * (9/10) ≤ pt.1 ∧ pt.1 ≤ q.1 * (11/10)) := by
  intro l
  induction l with
  | nil =>
    intro df pt h
    exact ⟨h, by simp⟩
  | cons a l ih =>
    intro df pt h
    rw [List.foldl_cons] at h
    obtain ⟨hmem, hall⟩ := ih _ pt h
    have hdf : pt ∈ df := List.mem_of_mem_filter hmem
    have hcond := List.of_mem_filter hmem
    refine ⟨hdf, ?_⟩
    intro q hq
    rcases List.mem_cons.mp hq with rfl | hq'
    · rw [Bool.not_eq_true', decide_eq_false_iff_not] at hcond
      exact hcond
    · exact hall q hq'

/-- C6 (amended): after any `update_compensation_file` call, every persisted
point is either one of the batch's new points or a pre-existing point (as
read back from the file) lying outside the ±10% band of every new point's
frequency.  The pairwise no-near-duplicates invariant claimed for the whole
table does not hold: points within one batch never evict each other. -/
theorem update_compensation_membership (file : Option CompFile)
    (new_points : List (ℚ × ℚ)) (pt : ℚ × ℚ)
    (h : pt ∈ (update_compensation_file file new_points).rows) :
    pt ∈ new_points
    ∨ (pt ∈ read_compensation_table file
        ∧ ∀ q ∈ new_points, ¬(q.1 * (9/10) ≤ pt.1 ∧ pt.1 ≤ q.1 * (11/10))) := by
  simp only [update_compensation_file] at h
  rw [List.mem_insertionSort] at h
  rcases List.mem_append.mp h with hsurv | hnew
  · right
    exact mem_foldl_evict new_points _ pt hsurv
  · left
    exact hnew

/-- Witness for C6 (amended): a point inserted into an empty table is one of
the batch's new points. -/
theorem update_compensation_membership_witness :
    ((100 : ℚ), (0 : ℚ)) ∈ [((100 : ℚ), (0 : ℚ))]
    ∨ (((100 : ℚ), (0 : ℚ)) ∈ read_compensation_table none
        ∧ ∀ q ∈ [((100 : ℚ), (0 : ℚ))],
            ¬(q.1 * (9/10) ≤ (100 : ℚ) ∧ (100 : ℚ) ≤ q.1 * (11/10))) :=
  update_compensation_membership none [((100 : ℚ), (0 : ℚ))] ((100 : ℚ), (0 : ℚ))
    (by
      simp only [update_compensation_file, read_compensation_table,
        List.foldl_cons, List.foldl_nil, evict_near, List.filter_nil,
        List.nil_append, List.mem_insertionSort]
      simp)

/-- Counterexample for C6: starting from an empty table, a single batch
containing the two near-duplicate points `(100, 0)` and `(105, 0)` persists
both, although `105` lies inside the ±10% band `[90, 110]` of `100`:
points of the same batch never evict each other. -/
theorem update_compensation_near_duplicates_counterexample :
    (update_compensation_file none [((100 : ℚ), 0), ((105 : ℚ), 0)]).rows
      = [((100 : ℚ), 0), ((105 : ℚ), 0)]
    ∧ ((100 : ℚ) * (9/10) ≤ 105 ∧ (105 : ℚ) ≤ 100 * (11/10)) := by
  constructor
  · have hins : (100 : ℚ) ≤ 105 := by norm_num
    simp [update_compensation_file, read_compensation_table, evict_near, hins]
  · norm_num

/-- C5 (evaluation at the failing input): on the existing table
`[(100, 1), (5000, 2)]` and the single new point `(1e9, 0.5)`, the updated
file keeps only `[(5000, 2), (1e9, 0.5)]`: the pandas read
(`header=0` with `names`) consumed the first data row `(100, 1)`, although
`100` lies outside the ±10% band of `1e9` and the claim says every such
point persists. -/
theorem update_compensation_drops_lowest_point :
    (update_compensation_file
        (some { header := comp_header, rows := [((100 : ℚ), 1), ((5000 : ℚ), 2)] })
        [((1000000000 : ℚ), 1/2)]).rows
      = [((5000 : ℚ), 2), ((1000000000 : ℚ), 1/2)]
    ∧ ¬((1000000000 : ℚ) * (9/10) ≤ 100 ∧ (100 : ℚ) ≤ 1000000000 * (11/10)) := by
  constructor
  · have hkeep : ¬((1000000000 : ℚ) * (9/10) ≤ 5000) := by norm_num
    have hins : (5000 : ℚ) ≤ 1000000000 := by norm_num
    simp [update_compensation_file, read_compensation_table, evict_near,
      hkeep, hins]
  · norm_num

theorem update_band_filter (file : Option CompFile) (f a : ℚ) (hf : 0 < f) :
    ((update_compensation_file file [(f, a)]).rows.filter
      (fun p => decide (f * (9/10) ≤ p.1 ∧ p.1 ≤ f * (11/10)))) = [(f, a)] := by
  have hband : f * (9/10) ≤ f ∧ f ≤ f * (11/10) := ⟨by linarith, by linarith⟩
  have hff : ∀ X : List (ℚ × ℚ),
      ((X.filter (fun p => !decide (f * (9/10) ≤ p.1 ∧ p.1 ≤ f * (11/10)))).filter
        (fun p => decide (f * (9/10) ≤ p.1 ∧ p.1 ≤ f * (11/10)))) = [] := by
    intro X
    induction X with
    | nil => rfl
    | cons x X ih =>
      cases hx : decide (f * (9/10) ≤ x.1 ∧ x.1 ≤ f * (11/10))
      · rw [List.filter_cons, if_pos (by rw [hx]; rfl),
          List.filter_cons, if_neg (by rw [hx]; decide), ih]
      · rw [List.filter_cons, if_neg (by rw [hx]; decide), ih]
  have hperm : List.Perm
      ((update_compensation_file file [(f, a)]).rows)
      (evict_near (read_compensation_table file) f ++ [(f, a)]) := by
    simp only [update_compensation_file, List.foldl_cons, List.foldl_nil]
    exact List.perm_insertionSort _ _
  have hfp := hperm.filter
      (fun p => decide (f * (9/10) ≤ p.1 ∧ p.1 ≤ f * (11/10)))
  rw [List.filter_append] at hfp
  simp only [evict_near] at hfp
  rw [hff] at hfp
  have hone : ([(f, a)] : List (ℚ × ℚ)).filter
      (fun p => decide (f * (9/10) ≤ p.1 ∧ p.1 ≤ f * (11/10))) = [(f, a)] := by
    simp [List.filter_cons, hband]
  rw [hone, List.nil_append] at hfp
  exact List.perm_singleton.mp hfp

/-- C7: for every starting file state and every single new point `(f, a)`
with `f > 0`, running `update_compensation_file` twice with `[(f, a)]`
leaves exactly one persisted point inside the ±10% band of `f` — the second
invocation evicts the copy stored by the first. -/
theorem update_compensation_idempotent_band (file : Option CompFile)
    (f a : ℚ) (hf : 0 < f) :
    ((update_compensation_file
        (some (update_compensation_file file [(f, a)])) [(f, a)]).rows.filter
      (fun p => decide (f * (9/10) ≤ p.1 ∧ p.1 ≤ f * (11/10)))).length = 1 := by
  rw [update_band_filter (some (update_compensation_file file [(f, a)])) f a hf]
  rfl

/-- Witness for C7: applying the point `(1e6, -3)` twice starting from no
file leaves exactly one point in the band `[0.9e6, 1.1e6]`. -/
theorem update_compensation_idempotent_band_witness :
    ((update_compensation_file
        (some (update_compensation_file none [((1000000 : ℚ), (-3 : ℚ))]))
        [((1000000 : ℚ), (-3 : ℚ))]).rows.filter
      (fun p => decide ((1000000 : ℚ) * (9/10) ≤ p.1
          ∧ p.1 ≤ (1000000 : ℚ) * (11/10)))).length = 1 :=
  update_compensation_idempotent_band none 1000000 (-3) (by norm_num)
